import Mathlib

/-!
Verification of the rabbithole-debate exploration graph engine.

The definitions below are a shallow embedding of the TypeScript sources:
  * `src/backend/src/routes/rabbithole.ts` — the follow-up question
    extraction pipeline (`extractMainAndFollowUps`);
  * `src/frontend/src/components/SearchView.tsx` — the dagre-based layout
    (`getLayoutedElements`), the expansion controller (`handleNodeClick`,
    split into its synchronous start phase and its resolve/reject
    continuations), JSON import (`handleImportJSON`), the initial search
    (`handleSearch`) and manual branch addition (`handleAddCustomFollowUp`).

JavaScript strings are modelled as Lean `String`s (lists of Unicode code
points); `String.prototype.length` (UTF-16 code units) is modelled by
`utf16Len`.  JavaScript's `\s` class and `trim` are modelled by `jsIsSpace`
and `jsTrim`.  `AbortController` identity (`===`) is modelled by a natural
number drawn from a monotone counter, so distinct controllers get distinct
tokens and identity comparison is numeric equality.
-/

/-! ### JavaScript string primitives -/

/-- JavaScript's `\s` character class (also used by `String.prototype.trim`):
space, tab, LF, VT, FF, CR, NBSP, and the Unicode space separators plus
line/paragraph separators and the BOM. -/
def jsIsSpace (c : Char) : Bool :=
  c == ' ' || c == '\t' || c == '\n' || c == '\x0b' || c == '\x0c' || c == '\r' ||
  c == ' ' || c == ' ' || (0x2000 ≤ c.val && c.val ≤ 0x200A) ||
  c == ' ' || c == ' ' || c == ' ' || c == ' ' ||
  c == '　' || c == '﻿'

/-- Trim `jsIsSpace` characters from both ends of a character list. -/
def jsTrimChars (cs : List Char) : List Char :=
  ((cs.dropWhile jsIsSpace).reverse.dropWhile jsIsSpace).reverse

/-- JavaScript `String.prototype.trim`. -/
def jsTrim (s : String) : String := ⟨jsTrimChars s.data⟩

/-- `String.prototype.length` counts UTF-16 code units: code points above
`0xFFFF` count twice. -/
def utf16Len (s : String) : Nat :=
  s.data.foldl (fun acc c => acc + (if 0x10000 ≤ c.val then 2 else 1)) 0

/-- ASCII lower-casing, modelling the `/i` flag on an all-ASCII pattern. -/
def asciiLower (c : Char) : Char :=
  if 65 ≤ c.val && c.val ≤ 90 then Char.ofNat (c.toNat + 32) else c

/-! ### The follow-up section regex
`/#{0,6}\s*\*{0,2}\s*follow[- ]up questions\s*\*{0,2}\s*:?/i`
from `src/backend/src/routes/rabbithole.ts`.  Each quantified piece of the
pattern is separated from its neighbours by disjoint character classes, so
the backtracking regex engine behaves like the greedy deterministic
matcher implemented here. -/

/-- Greedily consume up to `n` copies of the character `ch`. -/
def dropUpTo (ch : Char) : Nat → List Char → List Char
  | 0, cs => cs
  | _, [] => []
  | n + 1, c :: cs => if c == ch then dropUpTo ch n cs else c :: cs

/-- Greedily consume `\s*`. -/
def dropSpaces (cs : List Char) : List Char := cs.dropWhile jsIsSpace

/-- Case-insensitively consume the literal pattern `p`; `some rest` on
success. -/
def dropLitCI : List Char → List Char → Option (List Char)
  | [], cs => some cs
  | _ :: _, [] => none
  | p :: ps, c :: cs =>
      if asciiLower c == asciiLower p then dropLitCI ps cs else none

/-- Try to match the follow-up heading regex at the head of `cs`; on success
return the remainder after the (greedy) match. -/
def tryMatchHeader (cs : List Char) : Option (List Char) :=
  let cs := dropUpTo '#' 6 cs
  let cs := dropSpaces cs
  let cs := dropUpTo '*' 2 cs
  let cs := dropSpaces cs
  match dropLitCI "follow".data cs with
  | none => none
  | some cs =>
    match cs with
    | [] => none
    | c :: cs =>
      if c == '-' || c == ' ' then
        match dropLitCI "up questions".data cs with
        | none => none
        | some cs =>
          let cs := dropSpaces cs
          let cs := dropUpTo '*' 2 cs
          let cs := dropSpaces cs
          match cs with
          | ':' :: rest => some rest
          | _ => some cs
      else none

/-- First (leftmost) match of the heading regex: `some (before, after)`
splits the input around the matched text. -/
def findFirstMatchHeader : List Char → Option (List Char × List Char)
  | [] => none
  | c :: cs =>
    match tryMatchHeader (c :: cs) with
    | some rest => some ([], rest)
    | none =>
      match findFirstMatchHeader cs with
      | some (pre, rest) => some (c :: pre, rest)
      | none => none

/-- `String.prototype.split` on the heading regex (fuelled; any fuel of at
least the input length is enough because each match consumes at least the
mandatory literal `follow`). -/
def splitHeaderFuel : Nat → List Char → List (List Char)
  | 0, cs => [cs]
  | fuel + 1, cs =>
    match findFirstMatchHeader cs with
    | none => [cs]
    | some (pre, rest) => pre :: splitHeaderFuel fuel rest

/-- `response.split(followUpSectionRegex)`. -/
def jsSplitHeader (s : String) : List String :=
  (splitHeaderFuel (s.data.length + 1) s.data).map (fun cs => ⟨cs⟩)

/-! ### Per-line enumerator stripping
`line.replace(/^(\*{1,2})?\s*(\d+\.|-|\*)\s*(\*{1,2})?\s*/, "")`
followed by `.replace(/\*{1,2}/g, "")` and `.trim()`. -/

/-- Consume exactly `n` copies of `ch` or fail. -/
def dropExact (ch : Char) : Nat → List Char → Option (List Char)
  | 0, cs => some cs
  | _ + 1, [] => none
  | n + 1, c :: cs => if c == ch then dropExact ch n cs else none

/-- The trailing `\s*(\*{1,2})?\s*` of the enumerator pattern (all optional,
greedy, nothing after them can fail). -/
def afterEnum (cs : List Char) : List Char :=
  dropSpaces (dropUpTo '*' 2 (dropSpaces cs))

/-- Attempt the anchored enumerator pattern with the leading optional star
group fixed to exactly `k` stars. -/
def stripEnumWith (k : Nat) (cs : List Char) : Option (List Char) :=
  match dropExact '*' k cs with
  | none => none
  | some cs =>
    let cs := dropSpaces cs
    match cs with
    | [] => none
    | c :: rest =>
      if c.isDigit then
        match (c :: rest).dropWhile Char.isDigit with
        | '.' :: rest2 => some (afterEnum rest2)
        | _ => none
      else if c == '-' then some (afterEnum rest)
      else if c == '*' then some (afterEnum rest)
      else none

/-- The anchored first `replace`: the optional group `(\*{1,2})?` is tried
with two stars, then one, then absent (greedy backtracking order); if no
alternative matches, the line is unchanged. -/
def stripEnum (cs : List Char) : List Char :=
  match stripEnumWith 2 cs with
  | some r => r
  | none =>
    match stripEnumWith 1 cs with
    | some r => r
    | none =>
      match stripEnumWith 0 cs with
      | some r => r
      | none => cs

/-- The global `replace(/\*{1,2}/g, "")`: scanning left to right, every run
of stars is consumed two at a time (greedy), i.e. all `*` are removed. -/
def removeStars : List Char → List Char
  | [] => []
  | '*' :: '*' :: cs => removeStars cs
  | '*' :: cs => removeStars cs
  | c :: cs => c :: removeStars cs

/-- One line of the follow-up section: strip the enumerator, remove residual
bold markers, trim. -/
def processLine (s : String) : String :=
  ⟨jsTrimChars (removeStars (stripEnum s.data))⟩

/-- `section.split("\n")` (JavaScript split on a literal newline). -/
def splitNL : List Char → List (List Char)
  | [] => [[]]
  | c :: cs =>
    if c == '\n' then [] :: splitNL cs
    else
      match splitNL cs with
      | h :: t => (c :: h) :: t
      | [] => [[c]]

/-- Keep a candidate line iff it contains `?` (ASCII) or `？` (fullwidth) or
its UTF-16 length exceeds 15. -/
def keepLine (s : String) : Bool :=
  s.data.contains '?' || s.data.contains '？' || decide (15 < utf16Len s)

/-- The extraction pipeline of the `/rabbitholes/search` route: split the
model response on the follow-up heading, parse at most three questions from
the section after the first match, and return the trimmed text before the
first match as the main response. -/
def extractMainAndFollowUps (response : String) : String × List String :=
  let followUpSplit := jsSplitHeader response
  let followUpSection : Option String :=
    match followUpSplit with
    | _ :: second :: _ => some second
    | _ => none
  let followUpQuestions :=
    match followUpSection with
    | some sec =>
      (((((splitNL (jsTrimChars sec.data)).map (fun cs => (⟨cs⟩ : String))).filter
            (fun line => !(jsTrim line == ""))).map processLine).filter
          keepLine).take 3
    | none => []
  let mainResponse :=
    match followUpSplit with
    | first :: _ => jsTrim first
    | [] => ""
  (mainResponse, followUpQuestions)

/-- Does the follow-up heading pattern occur anywhere in `s`? -/
def headerOccurs (s : String) : Bool :=
  (findFirstMatchHeader s.data).isSome

/-! ### Frontend data model (`SearchView.tsx`)

Presentation-only attributes (colors, borders, shadows, edge arrow markers,
`targetPosition`/`sourcePosition`) are not modelled; the `style.opacity`
override of the failure path and the `style.width/height` writes are
likewise cosmetic.  Everything the claims mention — ids, node type, label,
content, expansion flags, sources, images, positions, edge endpoints — is
kept. -/

/-- A source record as stored in node data (`Source` in `SearchView.tsx`). -/
structure Source where
  title : String
  url : String
  uri : String
  author : String
  image : String
deriving DecidableEq

/-- An image record of the query-service response (`ImageData`). -/
structure ImageData where
  url : String
  thumbnail : String
  description : String
deriving DecidableEq

/-- The query-service response shape (`SearchResponse`). -/
structure SearchResponse where
  response : String
  followUpQuestions : List String
  sources : List Source
  images : List ImageData
  contextualQuery : String
deriving DecidableEq

/-- One conversation turn (`ConversationMessage`); both fields optional. -/
structure ConversationMessage where
  user : Option String
  assistant : Option String
deriving DecidableEq

/-- The `data` payload of a React Flow node.  `images` holds the mapped
image URLs (`response.images?.map(img => img.url)`). -/
structure FlowNodeData where
  label : String
  content : String
  isExpanded : Bool
  isCustom : Bool
  images : List String
  sources : List Source
deriving DecidableEq

/-- A React Flow node: id, node type (`"mainNode"` or `"default"`), data and
layout position. -/
structure FlowNode where
  id : String
  type : String
  data : FlowNodeData
  position : Int × Int
deriving DecidableEq

/-- A React Flow edge (directed, parent → child). -/
structure FlowEdge where
  id : String
  source : String
  target : String
deriving DecidableEq

/-! ### Layout engine (`getLayoutedElements`)

The module-level mutable `dagre.graphlib.Graph` is modelled as an explicit
`DagreState` threaded through each call.  `dagre.layout` itself is an
external library: it is modelled as an arbitrary (hence deterministic)
function `core` from the populated graph and a node id to a center
position. -/

/-- Bounding-box dimensions registered with dagre for one node. -/
structure DagreDim where
  width : Int
  height : Int
deriving DecidableEq

/-- The node/edge content of the module-level dagre graph. -/
structure DagreState where
  nodes : List (String × DagreDim)
  edges : List (String × String)
deriving DecidableEq

/-- `dagreGraph.removeNode(v)`: drops the node and every edge incident to
it. -/
def dagreRemoveNode (g : DagreState) (v : String) : DagreState :=
  { nodes := g.nodes.filter (fun p => !(p.1 == v))
    edges := g.edges.filter (fun e => !(e.1 == v) && !(e.2 == v)) }

/-- `dagreGraph.setNode(v, dim)`: overwrite the label if `v` is present,
otherwise append the node. -/
def dagreSetNode (g : DagreState) (v : String) (d : DagreDim) : DagreState :=
  if g.nodes.any (fun p => p.1 == v) then
    { g with nodes := g.nodes.map (fun p => if p.1 == v then (v, d) else p) }
  else
    { g with nodes := g.nodes ++ [(v, d)] }

/-- graphlib's implicit node creation: `setEdge` registers an absent
endpoint with an empty label (modelled as a zero bounding box). -/
def dagreEnsureNode (g : DagreState) (v : String) : DagreState :=
  if g.nodes.any (fun p => p.1 == v) then g
  else { g with nodes := g.nodes ++ [(v, DagreDim.mk 0 0)] }

/-- Record the directed edge `(v, w)` once. -/
def dagreAddEdge (g : DagreState) (v w : String) : DagreState :=
  if g.edges.any (fun e => e.1 == v && e.2 == w) then g
  else { g with edges := g.edges ++ [(v, w)] }

/-- `dagreGraph.setEdge(v, w)`: graphlib auto-creates absent endpoints and
records the edge once. -/
def dagreSetEdge (g : DagreState) (v w : String) : DagreState :=
  dagreAddEdge (dagreEnsureNode (dagreEnsureNode g v) w) v w

/-- The reset loop at the top of `getLayoutedElements`: capture the current
node list and remove every node (incident edges disappear with them). -/
def dagreReset (g : DagreState) : DagreState :=
  (g.nodes.map (fun p => p.1)).foldl dagreRemoveNode g

/-- Dimension lookup in the dagre graph. -/
def dagreLookup (g : DagreState) (v : String) : Option DagreDim :=
  (g.nodes.find? (fun p => p.1 == v)).map (fun p => p.2)

/-- Every edge's source endpoint is a registered node (graphlib guarantees
this because `setEdge` auto-creates endpoints). -/
def DagreWF (g : DagreState) : Prop :=
  ∀ e ∈ g.edges, ∃ p ∈ g.nodes, p.1 = e.1

instance (g : DagreState) : Decidable (DagreWF g) := by
  unfold DagreWF; infer_instance

/-- Bounding-box constants of `SearchView.tsx`. -/
def nodeWidth : Int := 600

/-- Height of the large (root) bounding box. -/
def nodeHeight : Int := 500

/-- Width of the small (question) bounding box. -/
def questionNodeWidth : Int := 300

/-- Height of the small (question) bounding box. -/
def questionNodeHeight : Int := 100

/-- `getLayoutedElements(nodes, edges)`: reset the shared dagre graph,
register every node with the large box for id `main` and the small box
otherwise, register the edges, run dagre (`core`), and return the nodes
with positions shifted from box centers by half the box dimensions.
Returns the final graph state (the module-level instance after the call)
together with the new nodes and the unchanged edges. -/
def getLayoutedElements (core : DagreState → String → Int × Int)
    (g0 : DagreState) (nodes : List FlowNode) (edges : List FlowEdge) :
    DagreState × List FlowNode × List FlowEdge :=
  let g1 := dagreReset g0
  let g2 := nodes.foldl
    (fun g n =>
      dagreSetNode g n.id
        (if n.id == "main" then DagreDim.mk nodeWidth nodeHeight
         else DagreDim.mk questionNodeWidth questionNodeHeight)) g1
  let g3 := edges.foldl (fun g e => dagreSetEdge g e.source e.target) g2
  let newNodes := nodes.map (fun n =>
    let p := core g3 n.id
    { n with position :=
        (p.1 - (if n.id == "main" then nodeWidth / 2 else questionNodeWidth / 2),
         p.2 - (if n.id == "main" then nodeHeight / 2 else questionNodeHeight / 2)) })
  (g3, newNodes, edges)

/-! ### Layout lemmas -/

theorem dagreRemoveFold_nodes (L : List String) (g : DagreState) :
    (L.foldl dagreRemoveNode g).nodes
      = g.nodes.filter (fun p => !(L.contains p.1)) := by
  induction L generalizing g with
  | nil => simp
  | cons v L ih =>
    rw [List.foldl_cons, ih]
    show (dagreRemoveNode g v).nodes.filter _ = _
    simp only [dagreRemoveNode, List.filter_filter]
    apply List.filter_congr
    intro p _
    by_cases h1 : p.1 = v <;> simp [List.contains, h1]

theorem dagreRemoveFold_edges (L : List String) (g : DagreState) :
    (L.foldl dagreRemoveNode g).edges
      = g.edges.filter (fun e => !(L.contains e.1) && !(L.contains e.2)) := by
  induction L generalizing g with
  | nil => simp
  | cons v L ih =>
    rw [List.foldl_cons, ih]
    show (dagreRemoveNode g v).edges.filter _ = _
    simp only [dagreRemoveNode, List.filter_filter]
    apply List.filter_congr
    intro e _
    by_cases h1 : e.1 = v <;> by_cases h2 : e.2 = v <;>
      simp [List.contains, h1, h2]

/-- Resetting a well-formed dagre graph empties it completely. -/
theorem dagreReset_eq_empty (g : DagreState) (h : DagreWF g) :
    dagreReset g = DagreState.mk [] [] := by
  have hn : (dagreReset g).nodes = [] := by
    rw [dagreReset, dagreRemoveFold_nodes]
    apply List.filter_eq_nil_iff.mpr
    intro p hp
    have hmem : p.1 ∈ g.nodes.map (fun q => q.1) := List.mem_map_of_mem _ hp
    have hc : (g.nodes.map (fun q => q.1)).contains p.1 = true := by
      simpa [List.contains] using List.elem_iff.mpr hmem
    intro hcontra
    rw [hc] at hcontra
    simp at hcontra
  have he : (dagreReset g).edges = [] := by
    rw [dagreReset, dagreRemoveFold_edges]
    apply List.filter_eq_nil_iff.mpr
    intro e hmemE
    obtain ⟨p, hp, hkey⟩ := h e hmemE
    have hmem : e.1 ∈ g.nodes.map (fun q => q.1) :=
      hkey ▸ List.mem_map_of_mem _ hp
    have hc : (g.nodes.map (fun q => q.1)).contains e.1 = true := by
      simpa [List.contains] using List.elem_iff.mpr hmem
    intro hcontra
    rw [hc] at hcontra
    simp at hcontra
  calc dagreReset g = ⟨(dagreReset g).nodes, (dagreReset g).edges⟩ := rfl
    _ = ⟨[], []⟩ := by rw [hn, he]

/-- `setNode` keeps a node entry (possibly relabelled) for every existing
key. -/
theorem mem_nodes_setNode {g : DagreState} {p : String × DagreDim}
    (hp : p ∈ g.nodes) (v : String) (d : DagreDim) :
    ∃ q ∈ (dagreSetNode g v d).nodes, q.1 = p.1 := by
  unfold dagreSetNode
  split
  · refine ⟨if p.1 == v then (v, d) else p, List.mem_map_of_mem _ hp, ?_⟩
    by_cases hpv : p.1 = v <;> simp [hpv]
  · exact ⟨p, List.mem_append_left _ hp, rfl⟩

theorem DagreWF_setNode {g : DagreState} (h : DagreWF g) (v : String)
    (d : DagreDim) : DagreWF (dagreSetNode g v d) := by
  intro e he
  have he' : e ∈ g.edges := by
    unfold dagreSetNode at he
    split at he <;> exact he
  obtain ⟨p, hp, hkey⟩ := h e he'
  obtain ⟨q, hq, hqkey⟩ := mem_nodes_setNode hp v d
  exact ⟨q, hq, by rw [hqkey, hkey]⟩

theorem mem_nodes_ensure {g : DagreState} {p : String × DagreDim}
    (hp : p ∈ g.nodes) (v : String) : p ∈ (dagreEnsureNode g v).nodes := by
  unfold dagreEnsureNode
  split
  · exact hp
  · exact List.mem_append_left _ hp

theorem edges_ensure (g : DagreState) (v : String) :
    (dagreEnsureNode g v).edges = g.edges := by
  unfold dagreEnsureNode
  split <;> rfl

theorem exists_key_ensure (g : DagreState) (v : String) :
    ∃ q ∈ (dagreEnsureNode g v).nodes, q.1 = v := by
  unfold dagreEnsureNode
  split
  · next hany =>
    obtain ⟨p, hp, hkey⟩ := List.any_eq_true.mp hany
    exact ⟨p, hp, by simpa using hkey⟩
  · exact ⟨(v, DagreDim.mk 0 0), List.mem_append_right _ (by simp), rfl⟩

theorem DagreWF_addEdge {g : DagreState} (h : DagreWF g) {v : String}
    (w : String) (hv : ∃ q ∈ g.nodes, q.1 = v) :
    DagreWF (dagreAddEdge g v w) := by
  intro e he
  have hnodes : (dagreAddEdge g v w).nodes = g.nodes := by
    unfold dagreAddEdge; split <;> rfl
  rw [hnodes]
  unfold dagreAddEdge at he
  split at he
  · exact h e he
  · rcases List.mem_append.mp he with he' | he'
    · exact h e he'
    · have hev : e = (v, w) := by simpa using he'
      obtain ⟨q, hq, hqkey⟩ := hv
      exact ⟨q, hq, by rw [hqkey, hev]⟩

theorem DagreWF_setEdge {g : DagreState} (h : DagreWF g) (v w : String) :
    DagreWF (dagreSetEdge g v w) := by
  unfold dagreSetEdge
  apply DagreWF_addEdge
  · intro e he
    rw [edges_ensure, edges_ensure] at he
    obtain ⟨p, hp, hkey⟩ := h e he
    exact ⟨p, mem_nodes_ensure (mem_nodes_ensure hp v) w, hkey⟩
  · obtain ⟨q, hq, hqkey⟩ := exists_key_ensure g v
    exact ⟨q, mem_nodes_ensure hq w, hqkey⟩

/-- The empty dagre graph is well-formed. -/
theorem DagreWF_empty : DagreWF (DagreState.mk [] []) := by
  intro e he
  simp at he

theorem DagreWF_nodeFold (ns : List FlowNode) (g : DagreState)
    (h : DagreWF g) :
    DagreWF (ns.foldl
      (fun g n =>
        dagreSetNode g n.id
          (if n.id == "main" then DagreDim.mk nodeWidth nodeHeight
           else DagreDim.mk questionNodeWidth questionNodeHeight)) g) := by
  induction ns generalizing g with
  | nil => exact h
  | cons m ms ih => exact ih _ (DagreWF_setNode h _ _)

theorem DagreWF_edgeFold (es : List FlowEdge) (g : DagreState)
    (h : DagreWF g) :
    DagreWF (es.foldl (fun g e => dagreSetEdge g e.source e.target) g) := by
  induction es generalizing g with
  | nil => exact h
  | cons e es ih => exact ih _ (DagreWF_setEdge h _ _)

/-- The layout function is blind to the incoming (well-formed) dagre state:
the reset makes it a pure function of `nodes` and `edges`. -/
theorem getLayoutedElements_state_blind (core : DagreState → String → Int × Int)
    (g g' : DagreState) (ns : List FlowNode) (es : List FlowEdge)
    (h : DagreWF g) (h' : DagreWF g') :
    getLayoutedElements core g ns es = getLayoutedElements core g' ns es := by
  unfold getLayoutedElements
  rw [dagreReset_eq_empty g h, dagreReset_eq_empty g' h']

/-- The dagre state returned by the layout call is well-formed. -/
theorem DagreWF_layoutState (core : DagreState → String → Int × Int)
    (g : DagreState) (ns : List FlowNode) (es : List FlowEdge)
    (h : DagreWF g) : DagreWF (getLayoutedElements core g ns es).1 := by
  unfold getLayoutedElements
  rw [dagreReset_eq_empty g h]
  exact DagreWF_edgeFold _ _ (DagreWF_nodeFold _ _ DagreWF_empty)

theorem findMap_update_eq {α : Type} (l : List (String × α)) (v : String)
    (d : α) (hany : l.any (fun p => p.1 == v) = true) :
    ((l.map (fun p => if p.1 == v then (v, d) else p)).find?
        (fun p => p.1 == v)) = some (v, d) := by
  induction l with
  | nil => simp at hany
  | cons p l ih =>
    rw [List.map_cons]
    by_cases hpv : p.1 = v
    · have hhead : (if p.1 == v then (v, d) else p) = (v, d) := by simp [hpv]
      rw [hhead, List.find?_cons_of_pos]
      simp
    · have hhead : (if p.1 == v then (v, d) else p) = p := by simp [hpv]
      have hany' : l.any (fun p => p.1 == v) = true := by
        simpa [hpv] using hany
      rw [hhead, List.find?_cons_of_neg]
      · exact ih hany'
      · simp [hpv]

theorem findMap_update_ne {α : Type} (l : List (String × α)) (v : String)
    (d : α) (x : String) (hx : x ≠ v) :
    ((l.map (fun p => if p.1 == v then (v, d) else p)).find?
        (fun p => p.1 == x))
      = l.find? (fun p => p.1 == x) := by
  induction l with
  | nil => rfl
  | cons p l ih =>
    rw [List.map_cons]
    by_cases hpv : p.1 = v
    · have hhead : (if p.1 == v then (v, d) else p) = (v, d) := by simp [hpv]
      rw [hhead, List.find?_cons_of_neg, List.find?_cons_of_neg]
      · exact ih
      · simp [hpv]
        exact fun hc => hx hc.symm
      · simp
        exact fun hc => hx hc.symm
    · have hhead : (if p.1 == v then (v, d) else p) = p := by simp [hpv]
      rw [hhead]
      by_cases hpx : p.1 = x
      · rw [List.find?_cons_of_pos, List.find?_cons_of_pos] <;> simp [hpx]
      · rw [List.find?_cons_of_neg, List.find?_cons_of_neg]
        · exact ih
        · simp [hpx]
        · simp [hpx]

/-- `dagreLookup` after `dagreSetNode`. -/
theorem dagreLookup_setNode (g : DagreState) (v : String) (d : DagreDim)
    (x : String) :
    dagreLookup (dagreSetNode g v d) x
      = if x = v then some d else dagreLookup g x := by
  unfold dagreSetNode
  split
  · next hany =>
    by_cases hx : x = v
    · subst hx
      show dagreLookup _ x = _
      unfold dagreLookup
      rw [show ({ g with nodes := g.nodes.map (fun p => if p.1 == x then (x, d) else p) } : DagreState).nodes = g.nodes.map (fun p => if p.1 == x then (x, d) else p) from rfl]
      rw [findMap_update_eq g.nodes x d hany]
      simp
    · unfold dagreLookup
      rw [show ({ g with nodes := g.nodes.map (fun p => if p.1 == v then (v, d) else p) } : DagreState).nodes = g.nodes.map (fun p => if p.1 == v then (v, d) else p) from rfl]
      rw [findMap_update_ne g.nodes v d x hx]
      simp [hx]
  · next hany =>
    by_cases hx : x = v
    · subst hx
      have hnone : g.nodes.find? (fun p => p.1 == x) = none := by
        rw [List.find?_eq_none]
        intro p hp hc
        exact absurd (List.any_eq_true.mpr ⟨p, hp, hc⟩) hany
      unfold dagreLookup
      rw [show ({ g with nodes := g.nodes ++ [(x, d)] } : DagreState).nodes = g.nodes ++ [(x, d)] from rfl]
      rw [List.find?_append, hnone]
      simp [List.find?]
    · have h2 : ([(v, d)].find? (fun p => p.1 == x)) = none := by
        rw [List.find?_eq_none]
        intro p hp hc
        have hpvd : p = (v, d) := by simpa using hp
        rw [hpvd] at hc
        have hvx : v = x := by simpa using hc
        exact hx hvx.symm
      unfold dagreLookup
      rw [show ({ g with nodes := g.nodes ++ [(v, d)] } : DagreState).nodes = g.nodes ++ [(v, d)] from rfl]
      rw [List.find?_append, h2]
      simp [hx]

/-- `dagreEnsureNode` preserves existing lookups. -/
theorem dagreLookup_ensure_pres {g : DagreState} {x : String} {d : DagreDim}
    (h : dagreLookup g x = some d) (v : String) :
    dagreLookup (dagreEnsureNode g v) x = some d := by
  unfold dagreEnsureNode
  split
  · exact h
  · unfold dagreLookup at h ⊢
    obtain ⟨p, hfind, hval⟩ : ∃ p, g.nodes.find? (fun p => p.1 == x) = some p ∧ p.2 = d := by
      cases hf : g.nodes.find? (fun p => p.1 == x) with
      | none => rw [hf] at h; simp at h
      | some p => rw [hf] at h; exact ⟨p, rfl, by simpa using h⟩
    simp [List.find?_append, hfind, hval]

/-- `dagreSetEdge` preserves existing lookups. -/
theorem dagreLookup_setEdge_pres {g : DagreState} {x : String} {d : DagreDim}
    (h : dagreLookup g x = some d) (v w : String) :
    dagreLookup (dagreSetEdge g v w) x = some d := by
  unfold dagreSetEdge
  have h2 := dagreLookup_ensure_pres (dagreLookup_ensure_pres h v) w
  unfold dagreAddEdge
  split
  · exact h2
  · exact h2

theorem dagreLookup_edgeFold_pres (es : List FlowEdge) (g : DagreState)
    {x : String} {d : DagreDim} (h : dagreLookup g x = some d) :
    dagreLookup (es.foldl (fun g e => dagreSetEdge g e.source e.target) g) x
      = some d := by
  induction es generalizing g with
  | nil => exact h
  | cons e es ih => exact ih _ (dagreLookup_setEdge_pres h _ _)

/-- After the node-registration fold, the graph holds exactly the supplied
nodes' bounding boxes (large for id `main`, small otherwise), each id's dim
determined by the id alone. -/
theorem dagreLookup_nodeFold (ns : List FlowNode) (g : DagreState)
    (x : String) :
    dagreLookup (ns.foldl
        (fun g n =>
          dagreSetNode g n.id
            (if n.id == "main" then DagreDim.mk nodeWidth nodeHeight
             else DagreDim.mk questionNodeWidth questionNodeHeight)) g) x
      = if x ∈ ns.map (fun n => n.id) then
          some (if x == "main" then DagreDim.mk nodeWidth nodeHeight
                else DagreDim.mk questionNodeWidth questionNodeHeight)
        else dagreLookup g x := by
  induction ns generalizing g with
  | nil => simp
  | cons m ms ih =>
    rw [List.foldl_cons, ih]
    by_cases hmem : x ∈ ms.map (fun n => n.id)
    · simp [hmem]
    · by_cases hx : x = m.id
      · subst hx
        simp [hmem, dagreLookup_setNode]
      · have hncons : x ∉ (m :: ms).map (fun n => n.id) := by
          simp only [List.map_cons, List.mem_cons]
          rintro (hc | hc)
          · exact hx hc
          · exact hmem (by simpa using hc)
        simp [hmem, hncons, dagreLookup_setNode, hx]

/-! ### Claims C8 and C9 -/

/-- A trivial stand-in for the external dagre layout pass, used to
instantiate witnesses. -/
def coreZero : DagreState → String → Int × Int := fun _ _ => (0, 0)

/-- A sample root node for witnesses. -/
def mainSample : FlowNode :=
  ⟨"main", "mainNode", ⟨"M", "C", true, false, [], []⟩, (0, 0)⟩

/-- A sample question node for witnesses. -/
def questionSample : FlowNode :=
  ⟨"question-0", "default", ⟨"Q", "", false, false, [], []⟩, (0, 0)⟩

/-- C8 — Layout idempotence and determinism: for every nodes list and edges
list, calling `getLayoutedElements` twice (threading the module-level dagre
graph through) yields identical outputs, and indeed the output does not
depend on the incoming (well-formed) graph instance at all: the instance is
reset before each call, so the layout is a pure function of its input. -/
theorem layoutIdempotent (core : DagreState → String → Int × Int)
    (g : DagreState) (ns : List FlowNode) (es : List FlowEdge)
    (h : DagreWF g) :
    (getLayoutedElements core (getLayoutedElements core g ns es).1 ns es).2
        = (getLayoutedElements core g ns es).2
      ∧ ∀ g', DagreWF g' →
          (getLayoutedElements core g' ns es).2
            = (getLayoutedElements core g ns es).2 := by
  constructor
  · rw [getLayoutedElements_state_blind core _ g ns es
      (DagreWF_layoutState core g ns es h) h]
  · intro g' h'
    rw [getLayoutedElements_state_blind core g' g ns es h' h]

/-- Witness for C8 at a concrete graph. -/
theorem layoutIdempotent_witness :
    (getLayoutedElements coreZero
        (getLayoutedElements coreZero (DagreState.mk [] [])
            [mainSample, questionSample] []).1
        [mainSample, questionSample] []).2
      = (getLayoutedElements coreZero (DagreState.mk [] [])
          [mainSample, questionSample] []).2 :=
  (layoutIdempotent coreZero (DagreState.mk [] [])
    [mainSample, questionSample] [] (by decide)).1

/-- C9 — Layout bounding boxes: in every computed layout the designated
root (the node with id `main`, per the data-model convention that the root
carries id `main`) is registered with the large 600×500 bounding box and
every other node with the small 300×100 box, and each returned node is the
input node with its position set to the dagre box center shifted left/up by
half the corresponding box dimensions. -/
theorem layoutBoundingBoxes (core : DagreState → String → Int × Int)
    (g : DagreState) (ns : List FlowNode) (es : List FlowEdge) :
    (∀ n ∈ ns, dagreLookup (getLayoutedElements core g ns es).1 n.id
        = some (if n.id == "main" then DagreDim.mk nodeWidth nodeHeight
                else DagreDim.mk questionNodeWidth questionNodeHeight))
    ∧ (getLayoutedElements core g ns es).2.1
        = ns.map (fun n =>
            let p := core (getLayoutedElements core g ns es).1 n.id
            { n with position :=
                (p.1 - (if n.id == "main" then nodeWidth / 2
                        else questionNodeWidth / 2),
                 p.2 - (if n.id == "main" then nodeHeight / 2
                        else questionNodeHeight / 2)) }) := by
  constructor
  · intro n hn
    have hx : n.id ∈ ns.map (fun n => n.id) := List.mem_map_of_mem _ hn
    refine dagreLookup_edgeFold_pres es _ ?_
    rw [dagreLookup_nodeFold]
    simp [hx]
  · rfl

/-- Witness for C9: the root gets the 600×500 box and a question node gets
the 300×100 box in a concrete layout. -/
theorem layoutBoundingBoxes_witness :
    dagreLookup (getLayoutedElements coreZero (DagreState.mk [] [])
        [mainSample, questionSample] []).1 "main"
      = some (DagreDim.mk nodeWidth nodeHeight)
    ∧ dagreLookup (getLayoutedElements coreZero (DagreState.mk [] [])
        [mainSample, questionSample] []).1 "question-0"
      = some (DagreDim.mk questionNodeWidth questionNodeHeight) := by
  constructor
  · have h := (layoutBoundingBoxes coreZero (DagreState.mk [] [])
      [mainSample, questionSample] []).1 mainSample (by simp)
    simpa [mainSample] using h
  · have h := (layoutBoundingBoxes coreZero (DagreState.mk [] [])
      [mainSample, questionSample] []).1 questionSample (by simp)
    simpa [questionSample] using h

/-! ### Expansion controller state (`SearchView` component state)

React state hooks and the always-synchronised `nodesRef`/`edgesRef` mutable
refs are collapsed into one record; `activeRequestRef` is an association
list from node id to the current `AbortController` token (or `none` for an
explicit `null` entry).  `nextToken` generates fresh controller identities;
`freshCounter` stands in for the `Date.now()`/`Math.random()` part of
generated unique ids. -/

/-- JavaScript `String.prototype.startsWith` (on code points). -/
def jsStartsWith (s pre : String) : Bool :=
  pre.data.isPrefixOf s.data

/-- Association-list lookup of `activeRequestRef.current[k]`; the outer
`Option` is JavaScript `undefined` (key absent), the inner one `null`. -/
def lookupReq (l : List (String × Option Nat)) (k : String) :
    Option (Option Nat) :=
  (l.find? (fun p => p.1 == k)).map (fun p => p.2)

/-- `activeRequestRef.current[k] = v`. -/
def setReq (l : List (String × Option Nat)) (k : String) (v : Option Nat) :
    List (String × Option Nat) :=
  if l.any (fun p => p.1 == k) then
    l.map (fun p => if p.1 == k then (k, v) else p)
  else l ++ [(k, v)]

/-- The component state of `SearchView`. -/
structure ViewState where
  query : String
  searchResult : Option SearchResponse
  nodes : List FlowNode
  edges : List FlowEdge
  isLoading : Bool
  conversationHistory : List ConversationMessage
  currentConcept : String
  customBranchQuestions : List String
  activeRequest : List (String × Option Nat)
  nextToken : Nat
  freshCounter : Nat
  dagre : DagreState
deriving DecidableEq

/-- `Object.values(activeRequestRef.current).some(c => c !== null)`. -/
def hasActiveRequests (s : ViewState) : Bool :=
  s.activeRequest.any (fun p => p.2.isSome)

/-- One node currently "pending expansion": its id maps to a live
controller token. -/
def pendingCount (s : ViewState) : Nat :=
  (s.activeRequest.filter (fun p => p.2.isSome)).length

/-- An issued expansion request: target node id, the captured controller
token, the captured `questionText`, and the clicked node snapshot that the
failure handler closes over. -/
structure Request where
  nodeId : String
  token : Nat
  query : String
  origNode : FlowNode
deriving DecidableEq

/-- Result of one synchronous phase of the controller: the new component
state, the request issued (if any), and whether an error was reported via
`console.error`. -/
structure StepOut where
  state : ViewState
  issued : Option Request
  errorLogged : Bool
deriving DecidableEq

/-- The synchronous prefix of `handleNodeClick`, up to and including the
`searchRabbitHole` call: guard on question-id and expansion flag, global
single-flight guard, fresh `AbortController` stored under the node id,
`setIsLoading(true)`, conversation-history append from the first expanded
main node found in `nodesRef` (the source's `lastMainNode` variable), and
the optimistic `Loading...` node update.  (The `abort()` of a previous
controller for the same id is unreachable: the single-flight guard already
returned if any entry was non-null.)  The request also carries
`previousConversation` captured from the closure — the history *before*
the append above — plus `concept` and `followUpMode`; only the query is
modelled since nothing downstream in the component reads the rest. -/
def handleNodeClickStart (s : ViewState) (node : FlowNode) : StepOut :=
  if !(jsStartsWith node.id "question-") || node.data.isExpanded then
    ⟨s, none, false⟩
  else if hasActiveRequests s then ⟨s, none, false⟩
  else
    let token := s.nextToken
    let s1 : ViewState := { s with
      activeRequest := setReq s.activeRequest node.id (some token)
      nextToken := s.nextToken + 1
      isLoading := true }
    let s2 : ViewState :=
      match s1.nodes.find? (fun n => n.type == "mainNode" && n.data.isExpanded) with
      | some lastMainNode =>
        { s1 with conversationHistory := s1.conversationHistory ++
            [⟨some lastMainNode.data.label, some lastMainNode.data.content⟩] }
      | none => s1
    let s3 : ViewState := { s2 with
      nodes := s2.nodes.map (fun n =>
        if n.id == node.id then
          { n with type := "mainNode",
                   data := { n.data with content := "Loading...", isExpanded := true } }
        else n) }
    ⟨s3, some ⟨node.id, token, node.data.label, node⟩, false⟩

/-- The continuation of `handleNodeClick` when `searchRabbitHole` resolves:
guarded by identity comparison of the stored controller against the
captured one, it replaces the clicked node's data with the response,
appends fresh follow-up question nodes and their edges, and re-runs the
layout; the `finally` clause then clears the stored controller (again only
under the identity guard) and resets `isLoading`. -/
def handleNodeClickSuccess (core : DagreState → String → Int × Int)
    (s : ViewState) (r : Request) (resp : SearchResponse) : StepOut :=
  let s' :=
    if lookupReq s.activeRequest r.nodeId = some (some r.token) then
      let transformedNodes := s.nodes.map (fun n =>
        if n.id == r.nodeId then
          { n with type := "mainNode",
                   data := ⟨if resp.contextualQuery == "" then r.query
                            else resp.contextualQuery,
                            resp.response, true, false,
                            resp.images.map (fun i => i.url), resp.sources⟩ }
        else n)
      let newFollowUpNodes : List FlowNode := resp.followUpQuestions.enum.map
        (fun p =>
          ⟨"question-" ++ r.nodeId ++ "-" ++ toString s.freshCounter ++ "-"
              ++ toString p.1,
           "default", ⟨p.2, "", false, false, [], []⟩, (0, 0)⟩)
      let newEdges : List FlowEdge := newFollowUpNodes.map (fun fn =>
        ⟨"edge-" ++ fn.id, r.nodeId, fn.id⟩)
      let mergedEdges := s.edges ++ newEdges
      let lay := getLayoutedElements core s.dagre
        (transformedNodes ++ newFollowUpNodes) mergedEdges
      { s with
        edges := mergedEdges
        nodes := lay.2.1
        dagre := lay.1
        freshCounter := s.freshCounter + 1 }
    else s
  let s'' :=
    if lookupReq s'.activeRequest r.nodeId = some (some r.token) then
      { s' with activeRequest := setReq s'.activeRequest r.nodeId none
                isLoading := false }
    else s'
  ⟨s'', none, false⟩

/-- The continuation of `handleNodeClick` when `searchRabbitHole` rejects:
for a non-`AbortError` error, and only while the stored controller is still
the captured one, the clicked node reverts to the snapshot taken at click
time with `isExpanded: false` (the original `node` object is spread back),
the error is logged, and the `finally` clause clears the controller entry
and resets `isLoading`.  No new request is issued. -/
def handleNodeClickFailure (s : ViewState) (r : Request)
    (isAbortError : Bool) : StepOut :=
  let hit := isAbortError = false ∧
    lookupReq s.activeRequest r.nodeId = some (some r.token)
  let s' :=
    if hit then
      { s with nodes := s.nodes.map (fun n =>
          if n.id == r.nodeId then
            { r.origNode with
                data := { r.origNode.data with isExpanded := false } }
          else n) }
    else s
  let s'' :=
    if lookupReq s'.activeRequest r.nodeId = some (some r.token) then
      { s' with activeRequest := setReq s'.activeRequest r.nodeId none
                isLoading := false }
    else s'
  ⟨s'', none, decide hit⟩

/-- Outcome reported by the import handler (the toast messages). -/
inductive ImportResult
  | branchOnly (n : Nat)
  | invalid
  | success (n : Nat)
deriving DecidableEq

/-- A parsed import payload (`RabbitHoleExport`): `none` in `nodes`,
`edges`, `branchQuestions` or `conversationHistory` models a field that is
missing or not array-typed (the code checks `Array.isArray`); `none` in the
string fields models a missing field. -/
structure ImportData where
  type : Option String
  query : Option String
  currentConcept : Option String
  conversationHistory : Option (List ConversationMessage)
  nodes : Option (List FlowNode)
  edges : Option (List FlowEdge)
  branchQuestions : Option (List String)
deriving DecidableEq

/-- `handleImportJSON` from the point where the file contents parsed into
`data`: the branch-only shape replaces only the custom-question pool; the
full shape requires array-typed `nodes` and `edges` or is rejected with no
state change; on acceptance the optional session fields overwrite only if
truthy (non-empty string) resp. present, the graph is layouted and
installed, and `searchResult` is set so the flow view renders. -/
def handleImportJSON (core : DagreState → String → Int × Int)
    (s : ViewState) (d : ImportData) : ViewState × ImportResult :=
  if d.type = some "branch-only" ∧ d.branchQuestions.isSome then
    ({ s with customBranchQuestions := d.branchQuestions.getD [] },
     ImportResult.branchOnly (d.branchQuestions.getD []).length)
  else
    match d.nodes, d.edges with
    | some ns, some es =>
      let s1 := match d.query with
        | some q => if q == "" then s else { s with query := q }
        | none => s
      let s2 := match d.currentConcept with
        | some c => if c == "" then s1 else { s1 with currentConcept := c }
        | none => s1
      let s3 := match d.conversationHistory with
        | some h => { s2 with conversationHistory := h }
        | none => s2
      let lay := getLayoutedElements core s3.dagre ns es
      ({ s3 with
          dagre := lay.1
          nodes := lay.2.1
          edges := lay.2.2
          searchResult := some ⟨"", [], [], [], d.query.getD ""⟩ },
       ImportResult.success lay.2.1.length)
    | _, _ => (s, ImportResult.invalid)

/-- The merged question list of `handleSearch` (its local
`allFollowUpQuestions`): the service's follow-up questions followed by the
custom branch pool minus literal duplicates. -/
def allFollowUpQuestionsOf (s : ViewState) (resp : SearchResponse) :
    List String :=
  resp.followUpQuestions ++
    s.customBranchQuestions.filter
      (fun q => !(resp.followUpQuestions.contains q))

/-- The resolved main node of `handleSearch` (its local `mainNode`: the
`loadingNode` spread overwritten with the response data before the state
is observed again). -/
def searchMainNode (s : ViewState) (resp : SearchResponse) : FlowNode :=
  ⟨"main", "mainNode",
   ⟨if resp.contextualQuery == "" then s.query else resp.contextualQuery,
    resp.response, true, false,
    resp.images.map (fun i => i.url), resp.sources⟩,
   (0, 0)⟩

/-- The question nodes of `handleSearch` (its local `followUpNodes`):
`question-i` per merged question, `isCustom` exactly beyond the service
list. -/
def searchFollowUpNodes (s : ViewState) (resp : SearchResponse) :
    List FlowNode :=
  (allFollowUpQuestionsOf s resp).enum.map
    (fun p =>
      ⟨"question-" ++ toString p.1, "default",
       ⟨p.2, "", false, decide (resp.followUpQuestions.length ≤ p.1), [], []⟩,
       (0, 0)⟩)

/-- The edges of `handleSearch` (its local `edges`): `edge-i` from `main`
to `question-i`. -/
def searchEdges (s : ViewState) (resp : SearchResponse) : List FlowEdge :=
  (List.range (allFollowUpQuestionsOf s resp).length).map
    (fun i => ⟨"edge-" ++ toString i, "main", "question-" ++ toString i⟩)

/-- `handleSearch` run to successful completion: guard on a blank query,
replace the graph with the resolved main node (the intermediate
`Loading...` node is overwritten before the state is observed again), the
merged question nodes and their edges, lay everything out, and end
loading. -/
def handleSearch (core : DagreState → String → Int × Int)
    (s : ViewState) (resp : SearchResponse) : ViewState :=
  if jsTrim s.query == "" then s
  else
    let lay := getLayoutedElements core s.dagre
      (searchMainNode s resp :: searchFollowUpNodes s resp)
      (searchEdges s resp)
    { s with
      searchResult := some resp
      nodes := lay.2.1
      edges := lay.2.2
      dagre := lay.1
      isLoading := false }

/-- `handleAddCustomFollowUp`: a manual branch bypasses the controller — it
synchronously creates a custom question node wired to the selected source
node (or the *last* expanded main node, or the first node, or `main`), with
no network call and no single-flight check. -/
def handleAddCustomFollowUp (core : DagreState → String → Int × Int)
    (s : ViewState) (followUpInput selectedSourceNodeId : String) :
    ViewState :=
  let question := jsTrim followUpInput
  if question == "" then s
  else
    let sourceId :=
      if !(selectedSourceNodeId == "") then selectedSourceNodeId
      else
        match (s.nodes.filter
            (fun n => n.type == "mainNode" && n.data.isExpanded)).getLast? with
        | some n => n.id
        | none =>
          match s.nodes.head? with
          | some n => n.id
          | none => "main"
    let uniqueId := "question-custom-" ++ toString s.freshCounter
    let newNode : FlowNode :=
      ⟨uniqueId, "default", ⟨question, "", false, true, [], []⟩, (0, 0)⟩
    let newEdge : FlowEdge := ⟨"edge-" ++ uniqueId, sourceId, uniqueId⟩
    let mergedEdges := s.edges ++ [newEdge]
    let lay := getLayoutedElements core s.dagre (s.nodes ++ [newNode])
      mergedEdges
    { s with
      edges := mergedEdges
      nodes := lay.2.1
      dagre := lay.1
      freshCounter := s.freshCounter + 1 }

/-- The initial component state (`useState` initialisers). -/
def initialState : ViewState :=
  ⟨"", none, [], [], false, [], "", [], [], 0, 0, DagreState.mk [] []⟩

/-- One atomic step of the component: a click's synchronous prefix, a
request resolution or rejection (at any time, for any captured request —
an over-approximation of the real interleavings), a completed initial
search, an import, or a manual branch addition. -/
inductive ViewStep (core : DagreState → String → Int × Int) :
    ViewState → ViewState → Prop
  | click (s : ViewState) (node : FlowNode) :
      ViewStep core s (handleNodeClickStart s node).state
  | success (s : ViewState) (r : Request) (resp : SearchResponse) :
      ViewStep core s (handleNodeClickSuccess core s r resp).state
  | failure (s : ViewState) (r : Request) (b : Bool) :
      ViewStep core s (handleNodeClickFailure s r b).state
  | search (s : ViewState) (resp : SearchResponse) :
      ViewStep core s (handleSearch core s resp)
  | importJSON (s : ViewState) (d : ImportData) :
      ViewStep core s (handleImportJSON core s d).1
  | addCustom (s : ViewState) (q src : String) :
      ViewStep core s (handleAddCustomFollowUp core s q src)

/-- States reachable from the initial component state. -/
inductive ViewReachable (core : DagreState → String → Int × Int) :
    ViewState → Prop
  | init : ViewReachable core initialState
  | step {s s' : ViewState} : ViewReachable core s → ViewStep core s s' →
      ViewReachable core s'

/-! ### Lemmas about the `activeRequestRef` association list -/

theorem lookupReq_setReq_self (l : List (String × Option Nat)) (k : String)
    (v : Option Nat) : lookupReq (setReq l k v) k = some v := by
  unfold setReq lookupReq
  split
  · next hany =>
    rw [findMap_update_eq l k v hany]
    rfl
  · next hany =>
    have hnone : l.find? (fun p => p.1 == k) = none := by
      rw [List.find?_eq_none]
      intro p hp hc
      exact absurd (List.any_eq_true.mpr ⟨p, hp, hc⟩) hany
    rw [List.find?_append, hnone]
    simp [List.find?]

theorem lookupReq_setReq_ne (l : List (String × Option Nat)) (k k' : String)
    (v : Option Nat) (h : k' ≠ k) :
    lookupReq (setReq l k v) k' = lookupReq l k' := by
  unfold setReq lookupReq
  split
  · rw [findMap_update_ne l k v k' h]
  · have h2 : ([(k, v)].find? (fun p => p.1 == k')) = none := by
      rw [List.find?_eq_none]
      intro p hp hc
      have hpkv : p = (k, v) := by simpa using hp
      rw [hpkv] at hc
      have hkk' : k = k' := by simpa using hc
      exact h hkk'.symm
    rw [List.find?_append, h2]
    cases l.find? (fun p => p.1 == k') <;> rfl

theorem keys_setReq (l : List (String × Option Nat)) (k : String)
    (v : Option Nat) :
    (setReq l k v).map (fun p => p.1)
      = if l.any (fun p => p.1 == k) then l.map (fun p => p.1)
        else l.map (fun p => p.1) ++ [k] := by
  unfold setReq
  split
  · next hany =>
    rw [List.map_map]
    apply List.map_congr_left
    intro p _
    by_cases hpk : p.1 = k <;> simp [hpk]
  · next hany =>
    rw [List.map_append]
    rfl

theorem nodupKeys_setReq (l : List (String × Option Nat)) (k : String)
    (v : Option Nat) (h : (l.map (fun p => p.1)).Nodup) :
    ((setReq l k v).map (fun p => p.1)).Nodup := by
  rw [keys_setReq]
  split
  · exact h
  · next hany =>
    apply List.Nodup.append h (List.nodup_singleton k)
    intro a ha hb
    have hak : a = k := by simpa using hb
    subst hak
    obtain ⟨p, hp, hkey⟩ := List.mem_map.mp ha
    have hbeq : (p.1 == a) = true := by simpa using hkey
    exact absurd (List.any_eq_true.mpr ⟨p, hp, hbeq⟩) hany

theorem length_filter_isSome_mapClear (l : List (String × Option Nat))
    (k : String) :
    ((l.map (fun p => if p.1 == k then (k, (none : Option Nat)) else p)).filter
        (fun p => p.2.isSome)).length
      ≤ (l.filter (fun p => p.2.isSome)).length := by
  rw [List.filter_map, List.length_map, ← List.countP_eq_length_filter,
    ← List.countP_eq_length_filter]
  apply List.countP_mono_left
  intro q hq hc
  by_cases hqk : q.1 = k
  · simp [Function.comp, hqk] at hc
  · simpa [Function.comp, hqk] using hc

theorem pendingLen_setReq_none (l : List (String × Option Nat)) (k : String) :
    ((setReq l k none).filter (fun p => p.2.isSome)).length
      ≤ (l.filter (fun p => p.2.isSome)).length := by
  unfold setReq
  split
  · exact length_filter_isSome_mapClear l k
  · rw [List.filter_append]
    simp

theorem length_filter_isSome_mapSet (l : List (String × Option Nat))
    (k : String) (t : Nat) (hall : ∀ p ∈ l, p.2 = none) :
    ((l.map (fun p => if p.1 == k then (k, some t) else p)).filter
        (fun p => p.2.isSome)).length
      = (l.filter (fun p => p.1 == k)).length := by
  rw [List.filter_map, List.length_map]
  apply congrArg List.length
  apply List.filter_congr
  intro q hq
  by_cases hqk : q.1 = k
  · simp [Function.comp, hqk]
  · simp [Function.comp, hqk, hall q hq]

theorem length_filter_key_le_one (l : List (String × Option Nat))
    (k : String) (hnd : (l.map (fun p => p.1)).Nodup) :
    (l.filter (fun p => p.1 == k)).length ≤ 1 := by
  induction l with
  | nil => simp
  | cons p l ih =>
    rw [List.map_cons, List.nodup_cons] at hnd
    rw [List.filter_cons]
    by_cases hpk : p.1 = k
    · have hnil : l.filter (fun p => p.1 == k) = [] := by
        rw [List.filter_eq_nil_iff]
        intro q hq hc
        exact hnd.1 (List.mem_map.mpr ⟨q, hq, by rw [hpk, ← (beq_iff_eq).mp hc]⟩)
      simp [hpk, hnil]
    · simpa [hpk] using ih hnd.2

theorem pendingLen_setReq_some (l : List (String × Option Nat)) (k : String)
    (t : Nat) (hall : ∀ p ∈ l, p.2 = none)
    (hnd : (l.map (fun p => p.1)).Nodup) :
    ((setReq l k (some t)).filter (fun p => p.2.isSome)).length ≤ 1 := by
  unfold setReq
  split
  · rw [length_filter_isSome_mapSet l k t hall]
    exact length_filter_key_le_one l k hnd
  · have hnil : l.filter (fun p => p.2.isSome) = [] := by
      rw [List.filter_eq_nil_iff]
      intro q hq hc
      rw [hall q hq] at hc
      simp at hc
    rw [List.filter_append, hnil]
    simp

/-! ### The single-flight invariant -/

/-- The controller map invariant: keys are unique (JavaScript object keys)
and at most one entry holds a live token. -/
def ReqListInv (l : List (String × Option Nat)) : Prop :=
  (l.map (fun p => p.1)).Nodup ∧ (l.filter (fun p => p.2.isSome)).length ≤ 1

theorem clickStart_activeRequest (s : ViewState) (node : FlowNode) :
    (handleNodeClickStart s node).state.activeRequest = s.activeRequest
      ∨ (hasActiveRequests s = false
         ∧ (handleNodeClickStart s node).state.activeRequest
             = setReq s.activeRequest node.id (some s.nextToken)) := by
  unfold handleNodeClickStart
  split
  · exact Or.inl rfl
  · split
    · exact Or.inl rfl
    · next h2 =>
      refine Or.inr ⟨by simpa using h2, ?_⟩
      dsimp only
      split <;> rfl

theorem clickSuccess_activeRequest (core : DagreState → String → Int × Int)
    (s : ViewState) (r : Request) (resp : SearchResponse) :
    (handleNodeClickSuccess core s r resp).state.activeRequest
        = s.activeRequest
      ∨ (handleNodeClickSuccess core s r resp).state.activeRequest
          = setReq s.activeRequest r.nodeId none := by
  unfold handleNodeClickSuccess
  dsimp only
  split
  · split
    · exact Or.inr rfl
    · exact Or.inr rfl
  · exact Or.inl rfl

theorem clickFailure_activeRequest (s : ViewState) (r : Request) (b : Bool) :
    (handleNodeClickFailure s r b).state.activeRequest = s.activeRequest
      ∨ (handleNodeClickFailure s r b).state.activeRequest
          = setReq s.activeRequest r.nodeId none := by
  unfold handleNodeClickFailure
  dsimp only
  split
  · split
    · exact Or.inr rfl
    · exact Or.inl rfl
  · split
    · exact Or.inr rfl
    · exact Or.inl rfl

theorem handleSearch_activeRequest (core : DagreState → String → Int × Int)
    (s : ViewState) (resp : SearchResponse) :
    (handleSearch core s resp).activeRequest = s.activeRequest := by
  unfold handleSearch
  split <;> rfl

theorem handleImportJSON_activeRequest
    (core : DagreState → String → Int × Int) (s : ViewState)
    (d : ImportData) :
    (handleImportJSON core s d).1.activeRequest = s.activeRequest := by
  unfold handleImportJSON
  split
  · rfl
  · cases d.nodes with
    | none => cases d.edges <;> rfl
    | some ns =>
      cases d.edges with
      | none => rfl
      | some es =>
        dsimp only
        cases d.query <;> cases d.currentConcept <;>
          cases d.conversationHistory <;> (repeat' split) <;> rfl

theorem handleAddCustomFollowUp_activeRequest
    (core : DagreState → String → Int × Int) (s : ViewState)
    (q src : String) :
    (handleAddCustomFollowUp core s q src).activeRequest
      = s.activeRequest := by
  unfold handleAddCustomFollowUp
  dsimp only
  (repeat' split) <;> rfl

theorem reqListInv_setReq_none (l : List (String × Option Nat)) (k : String)
    (h : ReqListInv l) : ReqListInv (setReq l k none) :=
  ⟨nodupKeys_setReq l k none h.1,
   le_trans (pendingLen_setReq_none l k) h.2⟩

theorem allNone_of_not_hasActive (s : ViewState)
    (h : hasActiveRequests s = false) :
    ∀ p ∈ s.activeRequest, p.2 = none := by
  intro p hp
  have := List.any_eq_false.mp h p hp
  exact Option.not_isSome_iff_eq_none.mp (by simpa using this)

/-- The single-flight invariant holds in every reachable component state. -/
theorem reachable_reqListInv (core : DagreState → String → Int × Int)
    (s : ViewState) (h : ViewReachable core s) :
    ReqListInv s.activeRequest := by
  induction h with
  | init => exact ⟨by simp [initialState], by simp [initialState]⟩
  | step hr hstep ih =>
    cases hstep with
    | click node =>
      rcases clickStart_activeRequest _ node with heq | ⟨hact, heq⟩
      · rw [heq]; exact ih
      · rw [heq]
        exact ⟨nodupKeys_setReq _ _ _ ih.1,
          pendingLen_setReq_some _ _ _ (allNone_of_not_hasActive _ hact) ih.1⟩
    | success r resp =>
      rcases clickSuccess_activeRequest core _ r resp with heq | heq
      · rw [heq]; exact ih
      · rw [heq]; exact reqListInv_setReq_none _ _ ih
    | failure r b =>
      rcases clickFailure_activeRequest _ r b with heq | heq
      · rw [heq]; exact ih
      · rw [heq]; exact reqListInv_setReq_none _ _ ih
    | search resp =>
      rw [handleSearch_activeRequest]; exact ih
    | importJSON d =>
      rw [handleImportJSON_activeRequest]; exact ih
    | addCustom q src =>
      rw [handleAddCustomFollowUp_activeRequest]; exact ih

/-! ### Claims C1, C2, C3, C5, C6, C7 -/

/-- A sample state with one in-flight expansion, for witnesses. -/
def pendingStateSample : ViewState :=
  { initialState with activeRequest := [("question-9", some 0)] }

/-- A sample query-service response, for witnesses. -/
def sampleResponse : SearchResponse := ⟨"R", [], [], [], ""⟩

/-- A sample captured request, for witnesses. -/
def sampleRequest : Request := ⟨"question-0", 0, "Q", questionSample⟩

/-- C1 — Single-flight expansion: in every reachable component state at
most one node is pending (its id holds a live controller token), and while
some request is in flight `handleNodeClick` on any node is a complete
no-op: the state is returned unchanged and no request is issued. -/
theorem singleFlight (core : DagreState → String → Int × Int) :
    (∀ s : ViewState, ViewReachable core s → pendingCount s ≤ 1)
    ∧ ∀ (s : ViewState) (node : FlowNode), hasActiveRequests s = true →
        handleNodeClickStart s node = ⟨s, none, false⟩ := by
  constructor
  · intro s h
    exact (reachable_reqListInv core s h).2
  · intro s node h
    unfold handleNodeClickStart
    split <;> rfl

/-- Witness for C1: the initial state satisfies the bound, and a concrete
state with an in-flight request rejects a second click unchanged. -/
theorem singleFlight_witness :
    pendingCount initialState ≤ 1
    ∧ handleNodeClickStart pendingStateSample questionSample
        = ⟨pendingStateSample, none, false⟩ :=
  ⟨(singleFlight coreZero).1 initialState ViewReachable.init,
   (singleFlight coreZero).2 pendingStateSample questionSample (by decide)⟩

/-- C2 — Stale-result discard: whenever the stored controller token for the
request's node id is superseded or cleared (identity comparison fails), a
late resolution — successful or failed — is dropped with no state mutation
whatsoever: no node, edge, history, loading-flag or controller-map change,
and no error is even logged for an aborted request. -/
theorem staleResultDiscard (core : DagreState → String → Int × Int)
    (s : ViewState) (r : Request) (resp : SearchResponse) (b : Bool)
    (h : lookupReq s.activeRequest r.nodeId ≠ some (some r.token)) :
    handleNodeClickSuccess core s r resp = ⟨s, none, false⟩
    ∧ handleNodeClickFailure s r b = ⟨s, none, false⟩ := by
  constructor
  · unfold handleNodeClickSuccess
    dsimp only
    rw [if_neg h, if_neg h]
  · unfold handleNodeClickFailure
    dsimp only
    have hhit : ¬(b = false
        ∧ lookupReq s.activeRequest r.nodeId = some (some r.token)) :=
      fun hc => h hc.2
    rw [if_neg hhit, if_neg h, decide_eq_false hhit]

/-- Witness for C2: with no stored controller, a late response and a late
rejection both leave the initial state untouched. -/
theorem staleResultDiscard_witness :
    handleNodeClickSuccess coreZero initialState sampleRequest sampleResponse
        = ⟨initialState, none, false⟩
    ∧ handleNodeClickFailure initialState sampleRequest false
        = ⟨initialState, none, false⟩ :=
  staleResultDiscard coreZero initialState sampleRequest sampleResponse false
    (by decide)

/-- The history turn the spec prescribes: the *last* expanded main node in
the graph.  Modelled from the spec: "conversation history is appended with
`{user: <label of last expanded main node>, assistant: <its content>}`" —
the comparator for the `.find(...)` (first match) the code actually uses. -/
def specLastExpandedMain (ns : List FlowNode) : Option FlowNode :=
  (ns.filter (fun n => n.type == "mainNode" && n.data.isExpanded)).getLast?

/-- First expanded main node in the root graph, for the C3 evidence. -/
def mainA : FlowNode := ⟨"main", "mainNode", ⟨"A", "CA", true, false, [], []⟩, (0, 0)⟩

/-- A second, later-expanded main node (an expanded question node keeps its
`question-` id but carries `type: mainNode` and `isExpanded: true`). -/
def mainB : FlowNode :=
  ⟨"question-0", "mainNode", ⟨"B", "CB", true, false, [], []⟩, (0, 0)⟩

/-- An unexpanded question node to click. -/
def questionC3 : FlowNode :=
  ⟨"question-1", "default", ⟨"QX", "", false, false, [], []⟩, (0, 0)⟩

/-- A state with two expanded main nodes, for the C3 evidence. -/
def stateC3 : ViewState := { initialState with nodes := [mainA, mainB, questionC3] }

/-- C3 — History-append ordering (code-bug evidence): with two expanded
main nodes (root labelled `A`, most recent labelled `B`), clicking a fresh
question node appends `{user: "A", assistant: "CA"}` — the *first* expanded
main node found by `Array.prototype.find`, i.e. always the root — although
the spec (and the variable's own name `lastMainNode`, and the sibling
`handleAddCustomFollowUp` which uses `.at(-1)` for the same concept)
prescribe the *last* expanded main node, here `B`.  The request is really
issued, so this is a genuine expansion start. -/
theorem historyAppendUsesFirstMain :
    (specLastExpandedMain stateC3.nodes).map (fun n => n.data.label)
        = some "B"
    ∧ (handleNodeClickStart stateC3 questionC3).state.conversationHistory
        = [⟨some "A", some "CA"⟩]
    ∧ (handleNodeClickStart stateC3 questionC3).issued.isSome = true := by
  decide

/-- C5 — Extraction pinned example. -/
theorem extractionPinnedExample :
    extractMainAndFollowUps
        "Intro text.\n#### Follow-up Questions\n1. What is X?\n2. Why Y?\n3. How does Z work?"
      = ("Intro text.", ["What is X?", "Why Y?", "How does Z work?"]) := by
  decide

/-- C6 counterexample: on an input with no follow-up heading but trailing
whitespace, the extraction's main text is the *trimmed* input, not the
entire input as claimed. -/
theorem extractionFallback_counterexample :
    headerOccurs "No heading here\n" = false
    ∧ (extractMainAndFollowUps "No heading here\n").1 ≠ "No heading here\n" := by
  decide

/-- C6 (amended) — Extraction fallback: for every input in which the
follow-up heading pattern does not occur, extraction returns the whole
input trimmed of leading/trailing whitespace as `mainText` (identical to
the input whenever it has no surrounding whitespace) and an empty
follow-up list; this is the documented fallback, not an error. -/
theorem extractionFallback (s : String)
    (h : findFirstMatchHeader s.data = none) :
    extractMainAndFollowUps s = (jsTrim s, []) := by
  unfold extractMainAndFollowUps jsSplitHeader
  rw [splitHeaderFuel, h]
  rfl

/-- Witness for the amended C6 at a concrete heading-free input. -/
theorem extractionFallback_witness :
    extractMainAndFollowUps "No heading here\n"
      = (jsTrim "No heading here\n", []) :=
  extractionFallback "No heading here\n" (by decide)

/-- A malformed import payload `{query: "x"}` (no nodes/edges). -/
def importSampleBad : ImportData := ⟨none, some "x", none, none, none, none, none⟩

/-- C7 — Import validation atomicity: a payload that is not branch-only
and whose `nodes` or `edges` field is missing or not array-typed is
rejected with a validation error, and the whole session state — query,
concept, history, nodes, edges, custom-question pool, everything — is
returned unchanged: validation failure never partially mutates state. -/
theorem importValidationAtomic (core : DagreState → String → Int × Int)
    (s : ViewState) (d : ImportData)
    (hbranch : d.type ≠ some "branch-only")
    (hmiss : d.nodes = none ∨ d.edges = none) :
    handleImportJSON core s d = (s, ImportResult.invalid) := by
  unfold handleImportJSON
  rw [if_neg (fun hc => hbranch hc.1)]
  rcases hmiss with h | h
  · rw [h]
  · rw [h]
    cases d.nodes <;> rfl

/-- Witness for C7: importing `{query: "x"}` into the initial session
leaves it untouched and reports a validation error. -/
theorem importValidationAtomic_witness :
    handleImportJSON coreZero initialState importSampleBad
      = (initialState, ImportResult.invalid) :=
  importValidationAtomic coreZero initialState importSampleBad (by decide)
    (Or.inl rfl)

/-! ### Claim C4 -/

/-- Overlaying the optimistic `Loading...` update and then mapping the
failure handler's revert (restore the clicked node's snapshot with
`isExpanded: false`) returns the node list to its original value, provided
the clicked node was unexpanded and node ids identify it uniquely. -/
theorem revert_map_roundTrip (l : List FlowNode) (node : FlowNode)
    (huniq : ∀ n ∈ l, n.id = node.id → n = node)
    (hexp : node.data.isExpanded = false) :
    ((l.map (fun n =>
        if n.id == node.id then
          { n with
              type := "mainNode"
              data := { n.data with content := "Loading...", isExpanded := true } }
        else n)).map (fun n =>
        if n.id == node.id then
          { node with data := { node.data with isExpanded := false } }
        else n)) = l := by
  have hrevert : ({ node with
      data := { node.data with isExpanded := false } } : FlowNode) = node := by
    obtain ⟨nid, nty, ⟨nl, nc, ne, nic, nim, nso⟩, npos⟩ := node
    simp only at hexp
    rw [hexp]
  induction l with
  | nil => rfl
  | cons n l ih =>
    rw [List.map_cons, List.map_cons]
    congr 1
    · by_cases hid : n.id = node.id
      · rw [huniq n (List.mem_cons_self n l) hid]
        rw [if_pos (by simp : (node.id == node.id) = true)]
        dsimp only
        rw [if_pos (by simp : (node.id == node.id) = true)]
        exact hrevert
      · rw [if_neg (by simp [hid] : ¬((n.id == node.id) = true))]
        rw [if_neg (by simp [hid] : ¬((n.id == node.id) = true))]
    · exact ih (fun m hm => huniq m (List.mem_cons_of_mem n hm))


/-- C4 — Failure revert: when a click really issued a request (so the node
was a fresh question node and no other request was in flight) and the
query-service call rejects with a non-abort error while the stored
controller is still the captured one, the component reverts completely:
the node list returns to its exact pre-click value (the clicked node's
snapshot is restored, so `isExpanded` is false again and the content is
back to its pre-expansion value), edges are untouched, the controller
entry is cleared to `null`, loading ends, no retry request is issued, and
the failure is reported through the error log. -/
theorem failureRevert (s : ViewState) (node : FlowNode) (r : Request)
    (hreq : (handleNodeClickStart s node).issued = some r)
    (huniq : ∀ n ∈ s.nodes, n.id = node.id → n = node) :
    (handleNodeClickFailure (handleNodeClickStart s node).state r
        false).state.nodes = s.nodes
    ∧ (handleNodeClickFailure (handleNodeClickStart s node).state r
        false).state.edges = s.edges
    ∧ lookupReq (handleNodeClickFailure (handleNodeClickStart s node).state r
        false).state.activeRequest node.id = some none
    ∧ (handleNodeClickFailure (handleNodeClickStart s node).state r
        false).state.isLoading = false
    ∧ (handleNodeClickFailure (handleNodeClickStart s node).state r
        false).issued = none
    ∧ (handleNodeClickFailure (handleNodeClickStart s node).state r
        false).errorLogged = true := by
  have hg1 : ¬((!(jsStartsWith node.id "question-")
      || node.data.isExpanded) = true) := by
    intro hg
    have hnoop : handleNodeClickStart s node = ⟨s, none, false⟩ := by
      unfold handleNodeClickStart
      rw [if_pos hg]
    rw [hnoop] at hreq
    simp at hreq
  have hg2 : ¬(hasActiveRequests s = true) := by
    intro hg
    have hnoop : handleNodeClickStart s node = ⟨s, none, false⟩ := by
      unfold handleNodeClickStart
      rw [if_neg hg1, if_pos hg]
    rw [hnoop] at hreq
    simp at hreq
  have hexp : node.data.isExpanded = false := by
    cases hB : node.data.isExpanded
    · rfl
    · exact absurd (by simp [hB]) hg1
  have hrq : r = ⟨node.id, s.nextToken, node.data.label, node⟩ := by
    unfold handleNodeClickStart at hreq
    rw [if_neg hg1, if_neg hg2] at hreq
    dsimp only at hreq
    exact (Option.some.inj hreq).symm
  subst hrq
  have hAR3 : (handleNodeClickStart s node).state.activeRequest
      = setReq s.activeRequest node.id (some s.nextToken) := by
    unfold handleNodeClickStart
    rw [if_neg hg1, if_neg hg2]
    dsimp only
    split <;> rfl
  have hnodes3 : (handleNodeClickStart s node).state.nodes
      = s.nodes.map (fun n =>
          if n.id == node.id then
            { n with
                type := "mainNode"
                data := { n.data with content := "Loading...", isExpanded := true } }
          else n) := by
    unfold handleNodeClickStart
    rw [if_neg hg1, if_neg hg2]
    dsimp only
    split <;> rfl
  have hedges3 : (handleNodeClickStart s node).state.edges = s.edges := by
    unfold handleNodeClickStart
    rw [if_neg hg1, if_neg hg2]
    dsimp only
    split <;> rfl
  have hlook : lookupReq (handleNodeClickStart s node).state.activeRequest
      node.id = some (some s.nextToken) := by
    rw [hAR3]
    exact lookupReq_setReq_self _ _ _
  generalize hs3 : (handleNodeClickStart s node).state = s3 at hAR3 hnodes3 hedges3 hlook ⊢
  unfold handleNodeClickFailure
  dsimp only
  have hcond : ((false : Bool) = false
      ∧ lookupReq s3.activeRequest node.id = some (some s.nextToken)) :=
    ⟨rfl, hlook⟩
  rw [if_pos hcond]
  dsimp only
  rw [if_pos hlook]
  refine ⟨?_, hedges3, lookupReq_setReq_self _ _ _, rfl, rfl, ?_⟩
  · show s3.nodes.map _ = s.nodes
    rw [hnodes3]
    exact revert_map_roundTrip s.nodes node huniq hexp
  · exact decide_eq_true hcond

/-- A two-node session (expanded root, fresh question), for the C4
witness. -/
def stateC4 : ViewState := { initialState with nodes := [mainSample, questionSample] }

/-- Witness for C4: clicking the concrete question node and failing with a
non-abort error restores the exact original node list and logs the
error. -/
theorem failureRevert_witness :
    (handleNodeClickFailure (handleNodeClickStart stateC4 questionSample).state
        sampleRequest false).state.nodes = stateC4.nodes
    ∧ (handleNodeClickFailure (handleNodeClickStart stateC4 questionSample).state
        sampleRequest false).errorLogged = true :=
  ⟨(failureRevert stateC4 questionSample sampleRequest (by decide) (by decide)).1,
   (failureRevert stateC4 questionSample sampleRequest (by decide)
      (by decide)).2.2.2.2.2⟩

/-! ### Injectivity of decimal node-id suffixes

The `question-${index}` / `edge-${index}` template ids of `handleSearch`
are pairwise distinct because decimal printing of naturals is injective;
this is proved by relating `Nat.repr`'s fuelled digit loop to a structural
recursion. -/

/-- Decimal digit list of `n`, by structural value recursion. -/
def decDigits (n : Nat) : List Char :=
  if n < 10 then [Nat.digitChar n]
  else decDigits (n / 10) ++ [Nat.digitChar (n % 10)]
termination_by n
decreasing_by
  exact Nat.div_lt_self (by omega) (by decide)

theorem decDigits_lt (n : Nat) (h : n < 10) :
    decDigits n = [Nat.digitChar n] := by
  conv_lhs => rw [decDigits]
  rw [if_pos h]

theorem decDigits_ge (n : Nat) (h : ¬n < 10) :
    decDigits n = decDigits (n / 10) ++ [Nat.digitChar (n % 10)] := by
  conv_lhs => rw [decDigits]
  rw [if_neg h]

theorem decDigits_ne_nil (n : Nat) : decDigits n ≠ [] := by
  by_cases h : n < 10
  · rw [decDigits_lt n h]; simp
  · rw [decDigits_ge n h]; simp

/-- The fuelled digit loop of `Nat.repr` agrees with `decDigits` whenever
the fuel exceeds the number. -/
theorem toDigitsCore_eq_decDigits (f : Nat) :
    ∀ (n : Nat) (ds : List Char), n < f →
      Nat.toDigitsCore 10 f n ds = decDigits n ++ ds := by
  induction f with
  | zero => intro n ds h; omega
  | succ f ih =>
    intro n ds h
    simp only [Nat.toDigitsCore]
    by_cases h0 : n / 10 = 0
    · have hlt : n < 10 := by omega
      rw [if_pos h0, decDigits_lt n hlt, Nat.mod_eq_of_lt hlt]
      rfl
    · have h10 : ¬n < 10 := by omega
      have hlt2 : n / 10 < f := by
        have := Nat.div_lt_self (show 0 < n by omega) (show 1 < 10 by decide)
        omega
      rw [if_neg h0, ih (n / 10) (Nat.digitChar (n % 10) :: ds) hlt2,
        decDigits_ge n h10, List.append_assoc]
      rfl

theorem digitChar_inj_lt :
    ∀ a < 10, ∀ b < 10, Nat.digitChar a = Nat.digitChar b → a = b := by
  decide

theorem decDigits_inj (m : Nat) : ∀ n, decDigits m = decDigits n → m = n := by
  induction m using Nat.strong_induction_on with
  | _ m ih =>
    intro n h
    by_cases hm : m < 10 <;> by_cases hn : n < 10
    · rw [decDigits_lt m hm, decDigits_lt n hn] at h
      exact digitChar_inj_lt m hm n hn (by simpa using h)
    · rw [decDigits_lt m hm, decDigits_ge n hn] at h
      rcases hne : decDigits (n / 10) with _ | ⟨c, cs⟩
      · exact absurd hne (decDigits_ne_nil _)
      · rw [hne] at h
        simp at h
    · rw [decDigits_ge m hm, decDigits_lt n hn] at h
      rcases hne : decDigits (m / 10) with _ | ⟨c, cs⟩
      · exact absurd hne (decDigits_ne_nil _)
      · rw [hne] at h
        simp at h
    · rw [decDigits_ge m hm, decDigits_ge n hn] at h
      obtain ⟨h1, h2⟩ := List.append_inj' h (by simp)
      have hdivlt : m / 10 < m :=
        Nat.div_lt_self (by omega) (by decide)
      have hdiv : m / 10 = n / 10 := ih (m / 10) hdivlt (n / 10) h1
      have hmod : m % 10 = n % 10 :=
        digitChar_inj_lt _ (Nat.mod_lt m (by decide)) _ (Nat.mod_lt n (by decide))
          (by simpa using h2)
      omega

/-- Decimal printing of naturals is injective. -/
theorem toString_nat_inj (m n : Nat) (h : toString m = toString n) :
    m = n := by
  have hm : toString m = (decDigits m).asString := by
    show Nat.repr m = _
    unfold Nat.repr Nat.toDigits
    rw [toDigitsCore_eq_decDigits (m + 1) m [] (by omega), List.append_nil]
  have hn : toString n = (decDigits n).asString := by
    show Nat.repr n = _
    unfold Nat.repr Nat.toDigits
    rw [toDigitsCore_eq_decDigits (n + 1) n [] (by omega), List.append_nil]
  rw [hm, hn] at h
  exact decDigits_inj m n (congrArg String.data h)

/-- Left cancellation for string concatenation. -/
theorem string_append_left_cancel {p a b : String} (h : p ++ a = p ++ b) :
    a = b := by
  have hd : p.data ++ a.data = p.data ++ b.data := by
    have := congrArg String.data h
    simpa using this
  have : a.data = b.data := List.append_cancel_left hd
  calc a = ⟨a.data⟩ := rfl
    _ = ⟨b.data⟩ := by rw [this]
    _ = b := rfl

/-! ### Claim C10 -/

/-- The node output of the layout call is the input list with only
positions rewritten (definitional restatement used for rewriting). -/
theorem layout_nodes_eq (core : DagreState → String → Int × Int)
    (g : DagreState) (ns : List FlowNode) (es : List FlowEdge) :
    (getLayoutedElements core g ns es).2.1
      = ns.map (fun n =>
          let p := core (getLayoutedElements core g ns es).1 n.id
          { n with position :=
              (p.1 - (if n.id == "main" then nodeWidth / 2
                      else questionNodeWidth / 2),
               p.2 - (if n.id == "main" then nodeHeight / 2
                      else questionNodeHeight / 2)) }) := rfl

/-- Each generated `question-i` id is hit by exactly one of the generated
`edge-i` edges. -/
theorem searchEdges_target_count (s : ViewState) (resp : SearchResponse)
    (i : Nat) (h : i < (allFollowUpQuestionsOf s resp).length) :
    ((searchEdges s resp).filter
        (fun e => e.target == "question-" ++ toString i)).length = 1 := by
  unfold searchEdges
  rw [List.filter_map, List.length_map]
  have hpt : ∀ j ∈ List.range (allFollowUpQuestionsOf s resp).length,
      ((fun e : FlowEdge => e.target == "question-" ++ toString i) ∘
        (fun j =>
          (⟨"edge-" ++ toString j, "main",
            "question-" ++ toString j⟩ : FlowEdge))) j = (j == i) := by
    intro j _
    by_cases hj : j = i
    · simp [Function.comp, hj]
    · have hne : ¬("question-" ++ toString j = "question-" ++ toString i) := by
        intro hc
        exact hj (toString_nat_inj j i (string_append_left_cancel hc))
      simp [Function.comp, hne, hj]
  rw [List.filter_congr hpt, ← List.countP_eq_length_filter]
  show List.count i (List.range (allFollowUpQuestionsOf s resp).length) = 1
  exact List.count_eq_one_of_mem (List.nodup_range _) (List.mem_range.mpr h)

/-- C10 — Initial-search pool merge: after a successful initial search the
graph is the resolved main node followed by exactly the merged question
list — the service's follow-up questions, then each pool question not
literally equal to a service question, in order — as `question-i` nodes
whose `isCustom` flag holds exactly for pool-derived indices; the edges
are exactly `edge-i` from `main` to `question-i`, so every question node
has exactly one incoming edge and its source is `main`. -/
theorem initialSearchPoolMerge (core : DagreState → String → Int × Int)
    (s : ViewState) (resp : SearchResponse) (hq : jsTrim s.query ≠ "") :
    (handleSearch core s resp).nodes.map
        (fun n => (n.id, n.data.label, n.data.isCustom))
      = ("main",
         (if resp.contextualQuery == "" then s.query
          else resp.contextualQuery), false)
        :: (allFollowUpQuestionsOf s resp).enum.map
            (fun p => ("question-" ++ toString p.1, p.2,
              decide (resp.followUpQuestions.length ≤ p.1)))
    ∧ (handleSearch core s resp).edges
        = (List.range (allFollowUpQuestionsOf s resp).length).map
            (fun i => ⟨"edge-" ++ toString i, "main",
              "question-" ++ toString i⟩)
    ∧ (∀ e ∈ (handleSearch core s resp).edges, e.source = "main")
    ∧ ∀ i < (allFollowUpQuestionsOf s resp).length,
        ((handleSearch core s resp).edges.filter
            (fun e => e.target == "question-" ++ toString i)).length = 1 := by
  have hbq : ¬((jsTrim s.query == "") = true) := by simpa using hq
  have hN : (handleSearch core s resp).nodes
      = (getLayoutedElements core s.dagre
          (searchMainNode s resp :: searchFollowUpNodes s resp)
          (searchEdges s resp)).2.1 := by
    unfold handleSearch
    rw [if_neg hbq]
  have hE : (handleSearch core s resp).edges = searchEdges s resp := by
    unfold handleSearch
    rw [if_neg hbq]
    rfl
  refine ⟨?_, ?_, ?_, ?_⟩
  · rw [hN, layout_nodes_eq, List.map_map, List.map_cons]
    unfold searchFollowUpNodes
    rw [List.map_map]
    rfl
  · rw [hE]
    rfl
  · intro e he
    rw [hE] at he
    unfold searchEdges at he
    obtain ⟨j, _, hj⟩ := List.mem_map.mp he
    rw [← hj]
  · intro i hi
    rw [hE]
    exact searchEdges_target_count s resp i hi

/-- A state with a non-blank query and a custom-question pool, for the C10
witness. -/
def stateC10 : ViewState :=
  { initialState with query := "q", customBranchQuestions := ["F", "P"] }

/-- A response whose single follow-up question collides with one pool
entry, for the C10 witness. -/
def respC10 : SearchResponse := ⟨"R", ["F"], [], [], ""⟩

/-- Witness for C10: with service questions `["F"]` and pool `["F", "P"]`
the merged questions are `["F", "P"]`, `P` is flagged custom, and the
nodes/edges have the prescribed shape. -/
theorem initialSearchPoolMerge_witness :
    (handleSearch coreZero stateC10 respC10).nodes.map
        (fun n => (n.id, n.data.label, n.data.isCustom))
      = [("main", "q", false), ("question-0", "F", false),
         ("question-1", "P", true)] := by
  have h := (initialSearchPoolMerge coreZero stateC10 respC10 (by decide)).1
  rw [h]
  decide
